import Mathlib

/-!
Verification of the Monitor Monkey agent core against its specification.

The Go sources are shallowly embedded: pure helpers become Lean functions,
the stateful stores become explicit state-passing functions, `time.Duration`
and `time.Time` become `Int` (nanoseconds), and fallible Go calls become
`Option`/`Except` values.  External effects (file contents, `ps` output,
HTTP responses, `/proc` socket tables) are passed in as explicit inputs.
-/

deriving instance DecidableEq for Except

namespace MonitorMonkey

/-! ## Go standard-library string primitives -/

/-- Byte/char class used by `strings.Fields` and `fmt.Sscanf` for ASCII input
(Go also treats some unicode spaces as white space; all inputs here are ASCII). -/
def goIsSpace (c : Char) : Bool :=
  c = ' ' ∨ c = '\t' ∨ c = '\n' ∨ c = '\x0b' ∨ c = '\x0c' ∨ c = '\r'

/-- Helper for `strings.Fields`: accumulate the current field (reversed). -/
def goFieldsAux : List Char → List Char → List String
  | [], cur => if cur = [] then [] else [String.mk cur.reverse]
  | c :: cs, cur =>
    if goIsSpace c then
      if cur = [] then goFieldsAux cs []
      else String.mk cur.reverse :: goFieldsAux cs []
    else goFieldsAux cs (c :: cur)

/-- `strings.Fields`: split around runs of white space, dropping empty pieces. -/
def goFields (s : String) : List String :=
  goFieldsAux s.data []

/-- Is `p` a prefix of `s` (character-wise)? -/
def isPrefixChars : List Char → List Char → Bool
  | [], _ => true
  | _ :: _, [] => false
  | p :: ps, c :: cs => p = c && isPrefixChars ps cs

/-- `strings.HasPrefix`. -/
def goStartsWith (s pre : String) : Bool :=
  isPrefixChars pre.data s.data

/-- `strings.HasSuffix`. -/
def goEndsWith (s suf : String) : Bool :=
  isPrefixChars suf.data.reverse s.data.reverse

/-- `strings.TrimSuffix`: drop `suf` if `s` ends with it, else return `s`. -/
def goTrimSuffix (s suf : String) : String :=
  if goEndsWith s suf then String.mk (s.data.take (s.data.length - suf.data.length))
  else s

/-- `strings.TrimSpace` (ASCII white space; Go also trims some unicode
spaces, which do not occur in the agent's inputs). -/
def goTrimSpace (s : String) : String :=
  String.mk (((s.data.dropWhile goIsSpace).reverse.dropWhile goIsSpace).reverse)

/-- `strings.Trim(s, "\"")`: remove all leading and trailing quote characters. -/
def goTrimQuotes (s : String) : String :=
  String.mk (((s.data.dropWhile (fun c => c = '"')).reverse.dropWhile
    (fun c => c = '"')).reverse)

/-- Helper for `strings.Split` with a one-character separator. -/
def goSplitOnCharAux (sep : Char) : List Char → List Char → List String
  | [], cur => [String.mk cur.reverse]
  | c :: cs, cur =>
    if c = sep then String.mk cur.reverse :: goSplitOnCharAux sep cs []
    else goSplitOnCharAux sep cs (c :: cur)

/-- `strings.Split(s, sep)` for the one-character separators used by the
agent (`"\n"`, `":"`); empty pieces are kept. -/
def goSplitOnChar (sep : Char) (s : String) : List String :=
  goSplitOnCharAux sep s.data []

/-- `strings.SplitN(line, "=", 2)`: `none` when no `=` occurs (the Go call then
returns a 1-element slice); otherwise the text before the first `=` and the
whole remainder after it. -/
def goSplitEq2 (line : String) : Option (String × String) :=
  match line.data.dropWhile (fun c => c ≠ '=') with
  | [] => none
  | _ :: rest => some (String.mk (line.data.takeWhile (fun c => c ≠ '=')), String.mk rest)

/-- `strings.Join(l, " ")`, at the character level. -/
def goJoinSpaceChars : List String → List Char
  | [] => []
  | [x] => x.data
  | x :: xs => x.data ++ ' ' :: goJoinSpaceChars xs

/-- `strings.Join(l, " ")`. -/
def goJoinSpace (l : List String) : String :=
  String.mk (goJoinSpaceChars l)

/-- Decimal digits to a natural number. -/
def digitsToNat (ds : List Char) : Nat :=
  ds.foldl (fun a c => a * 10 + (c.toNat - 48)) 0

/-! ## Go numeric parsing

`strconv.Atoi`, `strconv.ParseInt`, `strconv.ParseUint` and the `%d` verb of
`fmt.Sscanf`, for an explicit base 10 or 16 (so no `0x`/`0b` prefixes and no
underscore separators are accepted).  Out-of-range values are errors. -/

/-- `strconv.Atoi` = `ParseInt(s, 10, 64)`: optional sign, then a non-empty
run of digits consuming the whole string; result must fit in `int64`. -/
def goAtoi (s : String) : Option Int :=
  match s.data with
  | [] => none
  | cs =>
    let signed : Bool × List Char :=
      match cs with
      | '-' :: r => (true, r)
      | '+' :: r => (false, r)
      | r => (false, r)
    let ds := signed.2
    if ds = [] ∨ ¬ ds.all Char.isDigit then none
    else
      let v : Int := if signed.1 then -(digitsToNat ds : Int) else (digitsToNat ds : Int)
      if v < -(2 ^ 63) ∨ v > 2 ^ 63 - 1 then none else some v

/-- `strconv.ParseInt(s, 10, 32)` as used for the `ps` pid column. -/
def goParseInt32 (s : String) : Option Int :=
  match goAtoi s with
  | none => none
  | some v => if v < -(2 ^ 31) ∨ v > 2 ^ 31 - 1 then none else some v

/-- `strconv.ParseUint(s, 10, 64)`: non-empty all-digit string, no sign. -/
def goParseUint64 (s : String) : Option Nat :=
  match s.data with
  | [] => none
  | ds =>
    if ¬ ds.all Char.isDigit then none
    else
      let n := digitsToNat ds
      if n > 2 ^ 64 - 1 then none else some n

/-- `strconv.ParseUint(s, 16, 16)`: non-empty hex string, value below `2^16`. -/
def goParseUintHex16 (s : String) : Option Nat :=
  match s.data with
  | [] => none
  | ds =>
    if ¬ ds.all (fun c => c.isDigit ∨ ('a' ≤ c ∧ c ≤ 'f') ∨ ('A' ≤ c ∧ c ≤ 'F')) then none
    else
      let n := ds.foldl (fun a c =>
        a * 16 + (if c.isDigit then c.toNat - 48
                  else if 'a' ≤ c then c.toNat - 87 else c.toNat - 55)) 0
      if n > 2 ^ 16 - 1 then none else some n

/-- `fmt.Sscanf(val, "%d", &result)` with `result : int`: skip leading white
space, optional sign, a non-empty run of digits (trailing text is ignored by
`Sscanf`); the digit token must fit in `int64`. -/
def goSscanfInt (val : String) : Option Int :=
  let cs := val.data.dropWhile goIsSpace
  let signed : Bool × List Char :=
    match cs with
    | '-' :: r => (true, r)
    | '+' :: r => (false, r)
    | r => (false, r)
  let ds := signed.2.takeWhile Char.isDigit
  if ds = [] then none
  else
    let v : Int := if signed.1 then -(digitsToNat ds : Int) else (digitsToNat ds : Int)
    if v < -(2 ^ 63) ∨ v > 2 ^ 63 - 1 then none else some v

/-! ## `time.ParseDuration`

A faithful model of Go's `time.ParseDuration`, with durations as `Int`
nanoseconds and all `uint64` overflow checks made explicit.  The only
abstraction: the fractional-part contribution, which Go computes as
`uint64(float64(f) * (float64(unit) / scale))`, is modelled by the exact
rational floor `f * unit / scale`; every concrete input used in this file is
fraction-free, where the two computations agree. -/

/-- Go's `unitMap` for durations (value in nanoseconds). -/
def durUnit (u : String) : Option Nat :=
  if u = "ns" then some 1
  else if u = "us" then some 1000
  else if u = "µs" then some 1000
  else if u = "μs" then some 1000
  else if u = "ms" then some 1000000
  else if u = "s" then some 1000000000
  else if u = "m" then some 60000000000
  else if u = "h" then some 3600000000000
  else none

/-- Go's `leadingInt`: consume leading digits into a `uint64`, erroring on
overflow past `1<<63`. Returns the value and the remaining characters. -/
def leadingIntAux (x : Nat) : List Char → Option (Nat × List Char)
  | [] => some (x, [])
  | c :: cs =>
    if c.isDigit then
      if x > 922337203685477580 then none
      else
        let y := x * 10 + (c.toNat - 48)
        if y > 9223372036854775808 then none else leadingIntAux y cs
    else some (x, c :: cs)

/-- Go's `leadingFraction`: consume digits after the decimal point, keeping
the scale; once the value would overflow, further digits are discarded. -/
def leadingFractionAux (x scale : Nat) (overflow : Bool) :
    List Char → Nat × Nat × List Char
  | [] => (x, scale, [])
  | c :: cs =>
    if c.isDigit then
      if overflow then leadingFractionAux x scale true cs
      else if x > 922337203685477580 then leadingFractionAux x scale true cs
      else
        let y := x * 10 + (c.toNat - 48)
        if y > 9223372036854775808 then leadingFractionAux x scale true cs
        else leadingFractionAux y (scale * 10) false cs
    else (x, scale, c :: cs)

/-- Characters that terminate a duration unit (Go breaks on `.` or a digit). -/
def durUnitChar (c : Char) : Bool := ¬ (c = '.' ∨ c.isDigit)

/-- The main loop of `time.ParseDuration`, over the remaining characters, with
`d` the accumulated nanoseconds.  Each iteration consumes at least one
character, so `fuel` = input length + 1 never runs out. -/
def parseDurationLoop : Nat → Nat → List Char → Option Nat
  | 0, _, _ => none
  | _ + 1, d, [] => some d
  | fuel + 1, d, s =>
    match s with
    | [] => some d
    | c0 :: _ =>
      if ¬ (c0 = '.' ∨ c0.isDigit) then none
      else
        match leadingIntAux 0 s with
        | none => none
        | some (v, s1) =>
          let pre : Bool := s1.length ≠ s.length
          let fracRes : Nat × Nat × List Char × Bool :=
            match s1 with
            | '.' :: s1t =>
              let r := leadingFractionAux 0 1 false s1t
              (r.1, r.2.1, r.2.2, decide (r.2.2.length ≠ s1t.length))
            | _ => (0, 1, s1, false)
          let f := fracRes.1
          let scale := fracRes.2.1
          let s2 := fracRes.2.2.1
          let post := fracRes.2.2.2
          if ¬ pre ∧ ¬ post then none
          else
            let u := s2.takeWhile durUnitChar
            let s3 := s2.dropWhile durUnitChar
            if u = [] then none
            else
              match durUnit (String.mk u) with
              | none => none
              | some unit =>
                if v > 9223372036854775808 / unit then none
                else
                  let v1 := v * unit
                  let v2 := if f > 0 then v1 + f * unit / scale else v1
                  if f > 0 ∧ v2 > 9223372036854775808 then none
                  else
                    let d1 := d + v2
                    if d1 > 9223372036854775808 then none
                    else
                      match s3 with
                      | [] => some d1
                      | _ => parseDurationLoop fuel d1 s3

/-- `time.ParseDuration`: `none` models an error. -/
def goParseDuration (str : String) : Option Int :=
  let s := str.data
  let signed : Bool × List Char :=
    match s with
    | '-' :: rest => (true, rest)
    | '+' :: rest => (false, rest)
    | _ => (false, s)
  let neg := signed.1
  let s1 := signed.2
  if s1 = ['0'] then some 0
  else if s1 = [] then none
  else
    match parseDurationLoop (s1.length + 1) 0 s1 with
    | none => none
    | some d =>
      if neg then some (-(d : Int))
      else if d > 9223372036854775807 then none
      else some (d : Int)

/-! ## custom/alert_monitor.go — the alert DSL and its store

`time.Duration` and `time.Time` are both `Int` (nanoseconds); Go's zero
`time.Time` is `0`.  The `alerts` map is an association list with unique keys
(`mapInsert` overwrites in place like a Go map write); `time.Now()` values are
passed in explicitly. -/

/-- `MinAlertInterval = time.Minute` in nanoseconds. -/
def minAlertInterval : Int := 60000000000

/-- `parseInt` of alert_monitor.go: `fmt.Sscanf(val, "%d", &result)`. -/
def goParseInt (val : String) : Option Int := goSscanfInt val

/-- Wrap an integer into `int64` two's-complement range, for Go's silently
overflowing `time.Duration` multiplication. -/
def wrap64 (x : Int) : Int := (x + 2 ^ 63) % 2 ^ 64 - 2 ^ 63

/-- `parseInterval`: suffix-directed parsing of interval strings, falling back
to `time.ParseDuration` whenever the chosen branch's inner parse fails. -/
def parseInterval (interval : String) : Option Int :=
  if goEndsWith interval "ms" then
    match goParseDuration (goTrimSuffix interval "ms" ++ "ms") with
    | some ms => some ms
    | none => goParseDuration interval
  else if goEndsWith interval "s" then
    match goParseDuration (goTrimSuffix interval "s" ++ "s") with
    | some s => some s
    | none => goParseDuration interval
  else if goEndsWith interval "m" then
    match goParseDuration (goTrimSuffix interval "m" ++ "m") with
    | some m => some m
    | none => goParseDuration interval
  else if goEndsWith interval "h" || goEndsWith interval "hr" || goEndsWith interval "hrs" then
    match goParseDuration
        (goTrimSuffix (goTrimSuffix (goTrimSuffix interval "hrs") "hr") "h" ++ "h") with
    | some h => some h
    | none => goParseDuration interval
  else if goEndsWith interval "d" then
    match goParseInt (goTrimSuffix interval "d") with
    | some i => some (wrap64 (i * 24 * 3600000000000))
    | none => goParseDuration interval
  else goParseDuration interval

/-- The dynamically typed `data` value of an alert (`interface\x7b\x7d` holding a
string, an `int`, or a `float64`; the float is kept as its literal text since
no property inspects its numeric value). -/
inductive AlertData where
  | str : String → AlertData
  | int : Int → AlertData
  | float : String → AlertData
  deriving DecidableEq

/-- `strconv.ParseFloat(s, 64)` restricted to finite decimal literals:
optional sign, digits with optional fraction, optional exponent; the value is
kept as an exact rational (Go rounds to the nearest `float64`, and that
rounding is monotone, so the order comparisons used in this file agree).
Hex floats, `inf`/`nan` and underscore separators (accepted by Go) and
out-of-range magnitudes (rejected by Go) are outside the model and give
`none`; none occur in the agent's inputs. -/
def goParseFloatQ (s : String) : Option ℚ :=
  let cs := s.data
  let signed : Bool × List Char := match cs with
    | '-' :: r => (true, r)
    | '+' :: r => (false, r)
    | r => (false, r)
  let body := signed.2
  let ip := body.takeWhile Char.isDigit
  let r1 := body.dropWhile Char.isDigit
  let fracRes : List Char × List Char :=
    match r1 with
    | '.' :: t => (t.takeWhile Char.isDigit, t.dropWhile Char.isDigit)
    | _ => ([], r1)
  let fp := fracRes.1
  let r2 := fracRes.2
  if ip.isEmpty && fp.isEmpty then none
  else
    let mantNum : Nat := digitsToNat ip * 10 ^ fp.length + digitsToNat fp
    let withExp : Option ℚ :=
      match r2 with
      | [] => some (mkRat mantNum (10 ^ fp.length))
      | e :: r3 =>
        if e = 'e' || e = 'E' then
          let esigned : Bool × List Char := match r3 with
            | '-' :: t => (true, t)
            | '+' :: t => (false, t)
            | t => (false, t)
          let eb := esigned.2
          if eb.isEmpty || !eb.all Char.isDigit then none
          else if esigned.1 then some (mkRat mantNum (10 ^ (fp.length + digitsToNat eb)))
          else some (mkRat (mantNum * 10 ^ digitsToNat eb) (10 ^ fp.length))
        else none
    match withExp with
    | none => none
    | some q => some (if signed.1 then -q else q)

/-- Success of `strconv.ParseFloat(s, 64)` (see `goParseFloatQ`). -/
def goParseFloatOk (s : String) : Bool :=
  (goParseFloatQ s).isSome

/-- The `data` case of `parseAlertFile`: a quoted token is a string, else try
`strconv.Atoi`, then `strconv.ParseFloat`, else keep the raw string. -/
def parseDataValue (valueRaw : String) : AlertData :=
  if goStartsWith valueRaw "\"" && goEndsWith valueRaw "\"" then
    .str (goTrimQuotes valueRaw)
  else
    match goAtoi valueRaw with
    | some intVal => .int intVal
    | none =>
      if goParseFloatOk valueRaw then .float valueRaw
      else .str valueRaw

/-- A parsed `.mm` file (`AlertDefinition` of alert_monitor.go). -/
structure AlertDefinition where
  path : String
  name : String
  interval : Int
  data : AlertData
  lastSent : Int
  deriving DecidableEq

/-- The clamp at lines 210-214 of alert_monitor.go: intervals below
`MinAlertInterval` are raised to exactly `MinAlertInterval`. -/
def clampInterval (interval : Int) : Int :=
  if interval < minAlertInterval then minAlertInterval else interval

/-- The line loop of `parseAlertFile` over `(index, line)` pairs, carrying the
partially built `(Name, Interval, Data)` (Go zero values: `""`, `0`, `nil`).
`Except.error` models the early return on an unparsable interval. -/
def parseAlertLoop :
    List (Nat × String) → String → Int → Option AlertData →
    Except String (String × Int × Option AlertData)
  | [], n, iv, d => .ok (n, iv, d)
  | (i, rawLine) :: rest, n, iv, d =>
    let line := goTrimSpace rawLine
    if line = "" then parseAlertLoop rest n iv d
    else if goStartsWith line "#" then parseAlertLoop rest n iv d
    else if i ≥ 3 ∧ n ≠ "" ∧ iv ≠ 0 ∧ d ≠ none then .ok (n, iv, d)
    else
      match goSplitEq2 line with
      | none => parseAlertLoop rest n iv d
      | some kv =>
        let key := goTrimSpace kv.1
        let valueRaw := goTrimSpace kv.2
        if key = "name" then parseAlertLoop rest (goTrimQuotes valueRaw) iv d
        else if key = "interval" then
          match parseInterval (goTrimQuotes valueRaw) with
          | none => .error "invalid interval format"
          | some interval => parseAlertLoop rest n (clampInterval interval) d
        else if key = "data" then
          parseAlertLoop rest n iv (some (parseDataValue valueRaw))
        else parseAlertLoop rest n iv d

/-- `parseAlertFile`: split the file into lines, run the key=value loop, then
validate the three required fields. -/
def parseAlertFile (path content : String) : Except String AlertDefinition :=
  let lines := goSplitOnChar '\n' content
  match parseAlertLoop lines.enum "" 0 none with
  | .error e => .error e
  | .ok r =>
    let n := r.1
    let iv := r.2.1
    if n = "" then .error "missing name field"
    else if iv = 0 then .error "missing or invalid interval field"
    else
      match r.2.2 with
      | none => .error "missing data field"
      | some dv => .ok ⟨path, n, iv, dv, 0⟩

/-- The in-memory alert table (`map[string]*AlertDefinition`), keyed by file
path; built only through `mapInsert`, so keys are unique. -/
abbrev AlertTable := List (String × AlertDefinition)

/-- Association-list lookup (a Go map read). -/
def tlookup (p : String) : AlertTable → Option AlertDefinition
  | [] => none
  | (k, a) :: rest => if k = p then some a else tlookup p rest

/-- A Go map write: overwrite in place, or append a new binding. -/
def mapInsert : AlertTable → String → AlertDefinition → AlertTable
  | [], k, v => [(k, v)]
  | (k0, v0) :: rest, k, v =>
    if k0 = k then (k, v) :: rest else (k0, v0) :: mapInsert rest k v

/-- The `LastSent` inheritance of `loadAlerts` lines 140-143: an alert whose
path was in the previous table keeps that entry's timestamp. -/
def inheritLS (old : AlertTable) (path : String) (alert : AlertDefinition) :
    AlertDefinition :=
  match tlookup path old with
  | some prev => { alert with lastSent := prev.lastSent }
  | none => alert

/-- The per-file loop of `loadAlerts`: parse each globbed file, skip failures,
inherit `LastSent` by path, insert into the fresh table `acc`. -/
def loadAlertsAux (old : AlertTable) :
    List (String × String) → AlertTable → AlertTable
  | [], acc => acc
  | (file, content) :: rest, acc =>
    match parseAlertFile file content with
    | .error _ => loadAlertsAux old rest acc
    | .ok alert => loadAlertsAux old rest (mapInsert acc file (inheritLS old file alert))

/-- `loadAlerts`: rebuild the alert table from the directory's files
(`files` = path/content pairs as returned by `filepath.Glob`), preserving
`LastSent` for paths present in the previous table. -/
def loadAlerts (files : List (String × String)) (old : AlertTable) : AlertTable :=
  loadAlertsAux old files []

/-- The selection-and-stamp pass of `checkAlerts` lines 311-323: under one
lock, collect every alert with `now - LastSent ≥ Interval` for dispatch and
stamp its `LastSent` to `now`. -/
def dueSelect (now : Int) (t : AlertTable) : List AlertDefinition × AlertTable :=
  (t.filterMap fun pa =>
      if now - pa.2.lastSent ≥ pa.2.interval then some pa.2 else none,
   t.map fun pa =>
      (pa.1, if now - pa.2.lastSent ≥ pa.2.interval then
        { pa.2 with lastSent := now } else pa.2))

/-- `checkAlerts`: reload the directory, then select and stamp due alerts. -/
def checkAlerts (files : List (String × String)) (now : Int) (t : AlertTable) :
    List AlertDefinition × AlertTable :=
  dueSelect now (loadAlerts files t)

/-- `sendAllAlerts`: dispatch every loaded alert and stamp its `LastSent`
(Go calls `time.Now()` per iteration; the per-alert times of one startup pass
are modelled by the single instant `now`). -/
def sendAllAlerts (now : Int) (t : AlertTable) : List AlertDefinition × AlertTable :=
  if t.length = 0 then ([], t)
  else (t.map Prod.snd, t.map fun pa => (pa.1, { pa.2 with lastSent := now }))

/-- `Start` (without the background goroutine): load the directory into the
empty table of a fresh monitor, then send everything once. -/
def start (files : List (String × String)) (now : Int) :
    List AlertDefinition × AlertTable :=
  sendAllAlerts now (loadAlerts files [])

/-! ## Alert-table lemmas -/

/-- Well-formedness of an alert table: file paths (the keys) are unique, and
every entry's `Path` field equals its key. -/
def TableWF (t : AlertTable) : Prop :=
  ((t.map Prod.fst).Nodup) ∧ ∀ p a, (p, a) ∈ t → a.path = p

theorem tlookup_mem {p : String} {a : AlertDefinition} {t : AlertTable}
    (h : tlookup p t = some a) : (p, a) ∈ t := by
  induction t with
  | nil => simp [tlookup] at h
  | cons hd tl ih =>
    obtain ⟨k, b⟩ := hd
    by_cases hk : k = p
    · subst hk
      simp [tlookup] at h
      subst h
      exact List.mem_cons_self _ _
    · rw [tlookup, if_neg hk] at h
      exact List.mem_cons_of_mem _ (ih h)

theorem mem_tlookup {p : String} {a : AlertDefinition} {t : AlertTable}
    (hnd : (t.map Prod.fst).Nodup) (h : (p, a) ∈ t) : tlookup p t = some a := by
  induction t with
  | nil => simp at h
  | cons hd tl ih =>
    obtain ⟨k, b⟩ := hd
    rw [List.map_cons, List.nodup_cons] at hnd
    rcases List.mem_cons.mp h with h1 | h1
    · injection h1 with e1 e2
      subst e1; subst e2
      simp [tlookup]
    · have hk : k ≠ p := by
        intro e; subst e
        exact hnd.1 (List.mem_map.mpr ⟨_, h1, rfl⟩)
      rw [tlookup, if_neg hk]
      exact ih hnd.2 h1

theorem tlookup_mapInsert (t : AlertTable) (k q : String) (v : AlertDefinition) :
    tlookup q (mapInsert t k v) = if k = q then some v else tlookup q t := by
  induction t with
  | nil => simp [mapInsert, tlookup]
  | cons hd tl ih =>
    obtain ⟨k0, v0⟩ := hd
    by_cases h0 : k0 = k
    · subst h0
      rw [mapInsert, if_pos rfl]
      by_cases hq : k0 = q
      · subst hq; simp [tlookup]
      · simp [tlookup, hq]
    · rw [mapInsert, if_neg h0]
      by_cases hq : k0 = q
      · subst hq
        have hkq : ¬ k = k0 := fun e => h0 e.symm
        simp [tlookup, hkq]
      · simp [tlookup, hq, ih]

theorem mem_keys_mapInsert {q : String} {t : AlertTable} {k : String}
    {v : AlertDefinition} :
    q ∈ (mapInsert t k v).map Prod.fst ↔ q = k ∨ q ∈ t.map Prod.fst := by
  induction t with
  | nil => simp [mapInsert]
  | cons hd tl ih =>
    obtain ⟨k0, v0⟩ := hd
    by_cases h0 : k0 = k
    · subst h0
      rw [mapInsert, if_pos rfl]
      simp only [List.map_cons, List.mem_cons]
      tauto
    · rw [mapInsert, if_neg h0]
      simp only [List.map_cons, List.mem_cons, ih]
      tauto

theorem nodup_keys_mapInsert {t : AlertTable} {k : String} {v : AlertDefinition}
    (h : (t.map Prod.fst).Nodup) : ((mapInsert t k v).map Prod.fst).Nodup := by
  induction t with
  | nil => simp [mapInsert]
  | cons hd tl ih =>
    obtain ⟨k0, v0⟩ := hd
    rw [List.map_cons, List.nodup_cons] at h
    by_cases h0 : k0 = k
    · subst h0
      rw [mapInsert, if_pos rfl]
      rw [List.map_cons, List.nodup_cons]
      exact ⟨h.1, h.2⟩
    · rw [mapInsert, if_neg h0]
      rw [List.map_cons, List.nodup_cons]
      refine ⟨?_, ih h.2⟩
      intro hc
      rcases mem_keys_mapInsert.mp hc with e | e
      · exact h0 e
      · exact h.1 e

theorem mem_mapInsert {p : String} {b : AlertDefinition} {t : AlertTable}
    {k : String} {v : AlertDefinition} (h : (p, b) ∈ mapInsert t k v) :
    (p, b) ∈ t ∨ (p = k ∧ b = v) := by
  induction t with
  | nil =>
    rw [mapInsert] at h
    rcases List.mem_cons.mp h with h1 | h1
    · injection h1 with e1 e2
      exact Or.inr ⟨e1, e2⟩
    · simp at h1
  | cons hd tl ih =>
    obtain ⟨k0, v0⟩ := hd
    by_cases h0 : k0 = k
    · subst h0
      rw [mapInsert, if_pos rfl] at h
      rcases List.mem_cons.mp h with h1 | h1
      · injection h1 with e1 e2
        exact Or.inr ⟨e1, e2⟩
      · exact Or.inl (List.mem_cons_of_mem _ h1)
    · rw [mapInsert, if_neg h0] at h
      rcases List.mem_cons.mp h with h1 | h1
      · exact Or.inl (List.mem_cons.mpr (Or.inl h1))
      · rcases ih h1 with h2 | h2
        · exact Or.inl (List.mem_cons_of_mem _ h2)
        · exact Or.inr h2

theorem tableWF_mapInsert {t : AlertTable} {k : String} {v : AlertDefinition}
    (h : TableWF t) (hv : v.path = k) : TableWF (mapInsert t k v) := by
  refine ⟨nodup_keys_mapInsert h.1, ?_⟩
  intro p a hm
  rcases mem_mapInsert hm with h1 | ⟨e1, e2⟩
  · exact h.2 p a h1
  · subst e1; subst e2; exact hv

theorem parseAlertFile_path {p c : String} {a : AlertDefinition}
    (h : parseAlertFile p c = .ok a) : a.path = p := by
  simp only [parseAlertFile] at h
  split at h
  · exact absurd h (by simp)
  · split at h
    · exact absurd h (by simp)
    · split at h
      · exact absurd h (by simp)
      · split at h
        · exact absurd h (by simp)
        · injection h with h2
          subst h2
          rfl

theorem inheritLS_path (old : AlertTable) (p : String) (a : AlertDefinition) :
    (inheritLS old p a).path = a.path := by
  unfold inheritLS
  split <;> rfl

theorem tableWF_loadAlertsAux (old : AlertTable) (files : List (String × String)) :
    ∀ acc, TableWF acc → TableWF (loadAlertsAux old files acc) := by
  induction files with
  | nil => intro acc h; exact h
  | cons fc rest ih =>
    intro acc h
    obtain ⟨f, c⟩ := fc
    cases hp : parseAlertFile f c with
    | error e =>
      simp only [loadAlertsAux, hp]
      exact ih acc h
    | ok alert =>
      simp only [loadAlertsAux, hp]
      exact ih _ (tableWF_mapInsert h
        (by rw [inheritLS_path, parseAlertFile_path hp]))

theorem tableWF_loadAlerts (files : List (String × String)) (old : AlertTable) :
    TableWF (loadAlerts files old) :=
  tableWF_loadAlertsAux old files [] ⟨List.nodup_nil, by intro p a h; simp at h⟩

theorem mem_loadAlertsAux {old : AlertTable} {p : String} {b : AlertDefinition} :
    ∀ {files : List (String × String)} {acc : AlertTable},
      (p, b) ∈ loadAlertsAux old files acc →
      (p, b) ∈ acc ∨
        ∃ c a, (p, c) ∈ files ∧ parseAlertFile p c = .ok a ∧ b = inheritLS old p a := by
  intro files
  induction files with
  | nil => intro acc h; exact Or.inl h
  | cons fc rest ih =>
    intro acc h
    obtain ⟨f, c⟩ := fc
    cases hp : parseAlertFile f c with
    | error e =>
      simp only [loadAlertsAux, hp] at h
      rcases ih h with h1 | ⟨c2, a2, hm, hpa, hb⟩
      · exact Or.inl h1
      · exact Or.inr ⟨c2, a2, List.mem_cons_of_mem _ hm, hpa, hb⟩
    | ok alert =>
      simp only [loadAlertsAux, hp] at h
      rcases ih h with h1 | ⟨c2, a2, hm, hpa, hb⟩
      · rcases mem_mapInsert h1 with h2 | ⟨e1, e2⟩
        · exact Or.inl h2
        · subst e1; subst e2
          exact Or.inr ⟨c, alert, List.mem_cons_self _ _, hp, rfl⟩
      · exact Or.inr ⟨c2, a2, List.mem_cons_of_mem _ hm, hpa, hb⟩

theorem tlookup_loadAlertsAux_not_mem {old : AlertTable} {p : String} :
    ∀ {files : List (String × String)} {acc : AlertTable},
      p ∉ files.map Prod.fst →
      tlookup p (loadAlertsAux old files acc) = tlookup p acc := by
  intro files
  induction files with
  | nil => intro acc _; rfl
  | cons fc rest ih =>
    intro acc h
    obtain ⟨f, c⟩ := fc
    have hf : ¬ f = p := by
      intro e; exact h (by simp [e])
    have hrest : p ∉ rest.map Prod.fst := by
      intro hm; exact h (List.mem_cons_of_mem _ hm)
    cases hp : parseAlertFile f c with
    | error e =>
      simp only [loadAlertsAux, hp]
      exact ih hrest
    | ok alert =>
      simp only [loadAlertsAux, hp]
      rw [ih hrest, tlookup_mapInsert, if_neg hf]

theorem tlookup_loadAlertsAux {old : AlertTable} {p c : String} :
    ∀ {files : List (String × String)} {acc : AlertTable},
      (files.map Prod.fst).Nodup → (p, c) ∈ files →
      tlookup p (loadAlertsAux old files acc) =
        (match parseAlertFile p c with
         | .ok a => some (inheritLS old p a)
         | .error _ => tlookup p acc) := by
  intro files
  induction files with
  | nil => intro acc _ hm; simp at hm
  | cons fc rest ih =>
    intro acc hnd hm
    obtain ⟨f, cf⟩ := fc
    rw [List.map_cons, List.nodup_cons] at hnd
    rcases List.mem_cons.mp hm with h1 | h1
    · injection h1 with e1 e2
      subst e1; subst e2
      cases hp : parseAlertFile p c with
      | error e =>
        simp only [loadAlertsAux, hp]
        exact tlookup_loadAlertsAux_not_mem hnd.1
      | ok alert =>
        simp only [loadAlertsAux, hp]
        rw [tlookup_loadAlertsAux_not_mem hnd.1, tlookup_mapInsert, if_pos rfl]
    · have hf : ¬ f = p := by
        intro e; subst e
        exact hnd.1 (List.mem_map.mpr ⟨_, h1, rfl⟩)
      cases hp : parseAlertFile f cf with
      | error e =>
        simp only [loadAlertsAux, hp]
        exact ih hnd.2 h1
      | ok alert =>
        simp only [loadAlertsAux, hp]
        rw [ih hnd.2 h1]
        cases parseAlertFile p c with
        | error e2 => rw [tlookup_mapInsert, if_neg hf]
        | ok a2 => rfl

theorem tlookup_loadAlerts {old : AlertTable} {p c : String}
    {files : List (String × String)}
    (hnd : (files.map Prod.fst).Nodup) (hm : (p, c) ∈ files) :
    tlookup p (loadAlerts files old) =
      (match parseAlertFile p c with
       | .ok a => some (inheritLS old p a)
       | .error _ => none) :=
  tlookup_loadAlertsAux hnd hm

theorem tlookup_mapValues (g : AlertDefinition → AlertDefinition)
    (t : AlertTable) (p : String) :
    tlookup p (t.map fun pa => (pa.1, g pa.2)) = (tlookup p t).map g := by
  induction t with
  | nil => rfl
  | cons hd tl ih =>
    obtain ⟨k, b⟩ := hd
    by_cases hk : k = p
    · subst hk; simp [tlookup]
    · simp [tlookup, hk, ih]

theorem tableWF_mapValues {t : AlertTable} (h : TableWF t)
    (g : AlertDefinition → AlertDefinition) (hg : ∀ a, (g a).path = a.path) :
    TableWF (t.map fun pa => (pa.1, g pa.2)) := by
  constructor
  · rw [List.map_map]
    exact h.1
  · intro p a hm
    rw [List.mem_map] at hm
    obtain ⟨pa, hpa, he⟩ := hm
    injection he with e1 e2
    rw [← e2, hg]
    exact (h.2 pa.1 pa.2 hpa).trans e1

theorem mem_dueSelect {now : Int} {t : AlertTable} {a : AlertDefinition} :
    a ∈ (dueSelect now t).1 ↔
      ∃ p, (p, a) ∈ t ∧ now - a.lastSent ≥ a.interval := by
  unfold dueSelect
  simp only [List.mem_filterMap]
  constructor
  · rintro ⟨pa, hm, hif⟩
    by_cases hc : now - pa.2.lastSent ≥ pa.2.interval
    · rw [if_pos hc] at hif
      injection hif with e
      subst e
      exact ⟨pa.1, hm, hc⟩
    · rw [if_neg hc] at hif
      cases hif
  · rintro ⟨p, hm, hc⟩
    exact ⟨(p, a), hm, by rw [if_pos hc]⟩

theorem tlookup_dueSelect (now : Int) (t : AlertTable) (p : String) :
    tlookup p (dueSelect now t).2 =
      (tlookup p t).map fun a =>
        if now - a.lastSent ≥ a.interval then { a with lastSent := now } else a := by
  simp only [dueSelect]
  exact tlookup_mapValues
    (fun a => if now - a.lastSent ≥ a.interval then { a with lastSent := now } else a) t p

theorem tableWF_dueSelect {now : Int} {t : AlertTable} (h : TableWF t) :
    TableWF (dueSelect now t).2 := by
  have hg : ∀ a : AlertDefinition,
      ((fun a => if now - a.lastSent ≥ a.interval then
          { a with lastSent := now } else a) a).path = a.path := by
    intro a
    by_cases hc : now - a.lastSent ≥ a.interval
    · simp [hc]
    · simp [hc]
  have h2 := tableWF_mapValues h
    (fun a => if now - a.lastSent ≥ a.interval then { a with lastSent := now } else a) hg
  simpa only [dueSelect] using h2

/-! ## Invariants of the line loop of `parseAlertFile` -/

/-- Whether a raw line, trimmed the way `parseAlertFile` trims, is a
`key=value` line with the given key. -/
def lineHasKey (k rawLine : String) : Bool :=
  match goSplitEq2 (goTrimSpace rawLine) with
  | some kv => goTrimSpace kv.1 == k
  | none => false

theorem snd_mem_of_mem_enum {α : Type} {l : List α} {il : Nat × α}
    (h : il ∈ l.enum) : il.2 ∈ l := by
  have h2 : il.2 ∈ l.enum.map Prod.snd := List.mem_map.mpr ⟨il, h, rfl⟩
  rwa [List.enum_map_snd] at h2

theorem parseAlertLoop_name_const {el : List (Nat × String)} :
    ∀ {n : String} {iv : Int} {d : Option AlertData} {r},
      (∀ il ∈ el, lineHasKey "name" il.2 = false) →
      parseAlertLoop el n iv d = .ok r → r.1 = n := by
  induction el with
  | nil =>
    intro n iv d r _ h
    injection h with h
    rw [← h]
  | cons il rest ih =>
    intro n iv d r hk h
    obtain ⟨i, rawLine⟩ := il
    have hline := hk (i, rawLine) (List.mem_cons_self _ _)
    have hrest : ∀ il ∈ rest, lineHasKey "name" il.2 = false :=
      fun il hm => hk il (List.mem_cons_of_mem _ hm)
    simp only [parseAlertLoop] at h
    by_cases c1 : goTrimSpace rawLine = ""
    · rw [if_pos c1] at h
      exact ih hrest h
    · rw [if_neg c1] at h
      by_cases c2 : goStartsWith (goTrimSpace rawLine) "#" = true
      · rw [if_pos c2] at h
        exact ih hrest h
      · rw [if_neg c2] at h
        by_cases c3 : i ≥ 3 ∧ n ≠ "" ∧ iv ≠ 0 ∧ d ≠ none
        · rw [if_pos c3] at h
          injection h with h
          rw [← h]
        · rw [if_neg c3] at h
          cases hkv : goSplitEq2 (goTrimSpace rawLine) with
          | none =>
            simp only [hkv] at h
            exact ih hrest h
          | some kv =>
            simp only [hkv] at h
            simp only [lineHasKey, hkv] at hline
            by_cases c4 : goTrimSpace kv.1 = "name"
            · rw [c4] at hline
              simp at hline
            · rw [if_neg c4] at h
              by_cases c5 : goTrimSpace kv.1 = "interval"
              · rw [if_pos c5] at h
                cases hpi : parseInterval (goTrimQuotes (goTrimSpace kv.2)) with
                | none =>
                  simp only [hpi] at h
                  cases h
                | some ivv =>
                  simp only [hpi] at h
                  exact ih hrest h
              · rw [if_neg c5] at h
                by_cases c6 : goTrimSpace kv.1 = "data"
                · rw [if_pos c6] at h
                  exact ih hrest h
                · rw [if_neg c6] at h
                  exact ih hrest h

theorem parseAlertLoop_interval_const {el : List (Nat × String)} :
    ∀ {n : String} {iv : Int} {d : Option AlertData} {r},
      (∀ il ∈ el, lineHasKey "interval" il.2 = false) →
      parseAlertLoop el n iv d = .ok r → r.2.1 = iv := by
  induction el with
  | nil =>
    intro n iv d r _ h
    injection h with h
    rw [← h]
  | cons il rest ih =>
    intro n iv d r hk h
    obtain ⟨i, rawLine⟩ := il
    have hline := hk (i, rawLine) (List.mem_cons_self _ _)
    have hrest : ∀ il ∈ rest, lineHasKey "interval" il.2 = false :=
      fun il hm => hk il (List.mem_cons_of_mem _ hm)
    simp only [parseAlertLoop] at h
    by_cases c1 : goTrimSpace rawLine = ""
    · rw [if_pos c1] at h
      exact ih hrest h
    · rw [if_neg c1] at h
      by_cases c2 : goStartsWith (goTrimSpace rawLine) "#" = true
      · rw [if_pos c2] at h
        exact ih hrest h
      · rw [if_neg c2] at h
        by_cases c3 : i ≥ 3 ∧ n ≠ "" ∧ iv ≠ 0 ∧ d ≠ none
        · rw [if_pos c3] at h
          injection h with h
          rw [← h]
        · rw [if_neg c3] at h
          cases hkv : goSplitEq2 (goTrimSpace rawLine) with
          | none =>
            simp only [hkv] at h
            exact ih hrest h
          | some kv =>
            simp only [hkv] at h
            simp only [lineHasKey, hkv] at hline
            by_cases c4 : goTrimSpace kv.1 = "name"
            · rw [if_pos c4] at h
              exact ih hrest h
            · rw [if_neg c4] at h
              by_cases c5 : goTrimSpace kv.1 = "interval"
              · rw [c5] at hline
                simp at hline
              · rw [if_neg c5] at h
                by_cases c6 : goTrimSpace kv.1 = "data"
                · rw [if_pos c6] at h
                  exact ih hrest h
                · rw [if_neg c6] at h
                  exact ih hrest h

theorem parseAlertLoop_data_const {el : List (Nat × String)} :
    ∀ {n : String} {iv : Int} {d : Option AlertData} {r},
      (∀ il ∈ el, lineHasKey "data" il.2 = false) →
      parseAlertLoop el n iv d = .ok r → r.2.2 = d := by
  induction el with
  | nil =>
    intro n iv d r _ h
    injection h with h
    rw [← h]
  | cons il rest ih =>
    intro n iv d r hk h
    obtain ⟨i, rawLine⟩ := il
    have hline := hk (i, rawLine) (List.mem_cons_self _ _)
    have hrest : ∀ il ∈ rest, lineHasKey "data" il.2 = false :=
      fun il hm => hk il (List.mem_cons_of_mem _ hm)
    simp only [parseAlertLoop] at h
    by_cases c1 : goTrimSpace rawLine = ""
    · rw [if_pos c1] at h
      exact ih hrest h
    · rw [if_neg c1] at h
      by_cases c2 : goStartsWith (goTrimSpace rawLine) "#" = true
      · rw [if_pos c2] at h
        exact ih hrest h
      · rw [if_neg c2] at h
        by_cases c3 : i ≥ 3 ∧ n ≠ "" ∧ iv ≠ 0 ∧ d ≠ none
        · rw [if_pos c3] at h
          injection h with h
          rw [← h]
        · rw [if_neg c3] at h
          cases hkv : goSplitEq2 (goTrimSpace rawLine) with
          | none =>
            simp only [hkv] at h
            exact ih hrest h
          | some kv =>
            simp only [hkv] at h
            simp only [lineHasKey, hkv] at hline
            by_cases c4 : goTrimSpace kv.1 = "name"
            · rw [if_pos c4] at h
              exact ih hrest h
            · rw [if_neg c4] at h
              by_cases c5 : goTrimSpace kv.1 = "interval"
              · rw [if_pos c5] at h
                cases hpi : parseInterval (goTrimQuotes (goTrimSpace kv.2)) with
                | none =>
                  simp only [hpi] at h
                  cases h
                | some ivv =>
                  simp only [hpi] at h
                  exact ih hrest h
              · rw [if_neg c5] at h
                by_cases c6 : goTrimSpace kv.1 = "data"
                · rw [c6] at hline
                  simp at hline
                · rw [if_neg c6] at h
                  exact ih hrest h

theorem parseAlertLoop_interval_floor {el : List (Nat × String)} :
    ∀ {n : String} {iv : Int} {d : Option AlertData} {r},
      (iv = 0 ∨ minAlertInterval ≤ iv) →
      parseAlertLoop el n iv d = .ok r →
      (r.2.1 = 0 ∨ minAlertInterval ≤ r.2.1) := by
  induction el with
  | nil =>
    intro n iv d r hiv h
    injection h with h
    rw [← h]
    exact hiv
  | cons il rest ih =>
    intro n iv d r hiv h
    obtain ⟨i, rawLine⟩ := il
    simp only [parseAlertLoop] at h
    by_cases c1 : goTrimSpace rawLine = ""
    · rw [if_pos c1] at h
      exact ih hiv h
    · rw [if_neg c1] at h
      by_cases c2 : goStartsWith (goTrimSpace rawLine) "#" = true
      · rw [if_pos c2] at h
        exact ih hiv h
      · rw [if_neg c2] at h
        by_cases c3 : i ≥ 3 ∧ n ≠ "" ∧ iv ≠ 0 ∧ d ≠ none
        · rw [if_pos c3] at h
          injection h with h
          rw [← h]
          exact hiv
        · rw [if_neg c3] at h
          cases hkv : goSplitEq2 (goTrimSpace rawLine) with
          | none =>
            simp only [hkv] at h
            exact ih hiv h
          | some kv =>
            simp only [hkv] at h
            by_cases c4 : goTrimSpace kv.1 = "name"
            · rw [if_pos c4] at h
              exact ih hiv h
            · rw [if_neg c4] at h
              by_cases c5 : goTrimSpace kv.1 = "interval"
              · rw [if_pos c5] at h
                cases hpi : parseInterval (goTrimQuotes (goTrimSpace kv.2)) with
                | none =>
                  simp only [hpi] at h
                  cases h
                | some ivv =>
                  simp only [hpi] at h
                  refine ih (Or.inr ?_) h
                  unfold clampInterval
                  by_cases hc : ivv < minAlertInterval
                  · rw [if_pos hc]
                  · rw [if_neg hc]
                    omega
              · rw [if_neg c5] at h
                by_cases c6 : goTrimSpace kv.1 = "data"
                · rw [if_pos c6] at h
                  exact ih hiv h
                · rw [if_neg c6] at h
                  exact ih hiv h

/-! ## Claim theorems for the alert monitor -/

/-- C1: the spec says an integer followed by any of `ms,s,m,h,hr,hrs,d`
parses, but the `hrs` suffix never reaches its branch: any string ending in
`hrs` also ends in `s`, so the earlier `s` branch runs
`time.ParseDuration("3hr"+"s")`, which fails on the unknown unit `hrs`, and
the final `time.ParseDuration("3hrs")` fails the same way, so
`parseAlertFile` rejects the file.  The explicit (dead) `hrs` suffix check in
the source shows the intent; `hr` and `h` do work as specified. -/
theorem parseInterval_hrs_branch_unreachable :
    parseInterval "3hrs" = none
    ∧ parseAlertFile "f.mm" "name=x\ninterval=3hrs\ndata=1"
        = .error "invalid interval format"
    ∧ parseInterval "3hr" = some 10800000000000 :=
  ⟨by decide, by decide, by decide⟩

/-- C2: an alert selected and stamped at `t1` by one check cycle is not
selected by a later check cycle at `t2 < t1 + interval`, provided the next
cycle's directory still contains the alert's file with the same interval
(path-based identity; the stamp and the selection happen together, and the
reload preserves the stamped `LastSent` by path). -/
theorem checkAlerts_no_double_dispatch
    (t0 : AlertTable) (files1 files2 : List (String × String)) (t1 t2 : Int)
    (a1 : AlertDefinition) (h1 : a1 ∈ (checkAlerts files1 t1 t0).1)
    (hnd : (files2.map Prod.fst).Nodup)
    (c2 : String) (hf : (a1.path, c2) ∈ files2)
    (a2 : AlertDefinition) (hp : parseAlertFile a1.path c2 = .ok a2)
    (hi : a2.interval = a1.interval) (ht : t2 < t1 + a1.interval) :
    ∀ b ∈ (checkAlerts files2 t2 (checkAlerts files1 t1 t0).2).1,
      b.path ≠ a1.path := by
  intro b hb hbp
  have hwf1 : TableWF (loadAlerts files1 t0) := tableWF_loadAlerts files1 t0
  rw [checkAlerts] at h1
  rcases mem_dueSelect.mp h1 with ⟨p1, hmem1, hdue1⟩
  have hp1 : a1.path = p1 := hwf1.2 p1 a1 hmem1
  have hlk1 : tlookup a1.path (dueSelect t1 (loadAlerts files1 t0)).2
      = some { a1 with lastSent := t1 } := by
    rw [tlookup_dueSelect, hp1, mem_tlookup hwf1.1 hmem1]
    simp [hdue1, hp1]
  have hlk2 : tlookup a1.path
      (loadAlerts files2 (dueSelect t1 (loadAlerts files1 t0)).2)
      = some { a2 with lastSent := t1 } := by
    rw [tlookup_loadAlerts hnd hf]
    simp only [hp, inheritLS, hlk1]
  have hwf2 : TableWF (loadAlerts files2 (dueSelect t1 (loadAlerts files1 t0)).2) :=
    tableWF_loadAlerts _ _
  simp only [checkAlerts] at hb
  rcases mem_dueSelect.mp hb with ⟨p2, hmem2, hdue2⟩
  have hp2 : b.path = p2 := hwf2.2 p2 b hmem2
  have hlkb := mem_tlookup hwf2.1 hmem2
  rw [← hp2, hbp] at hlkb
  have hbeq : b = { a2 with lastSent := t1 } := by
    have h3 := hlkb.symm.trans hlk2
    injection h3
  rw [hbeq] at hdue2
  have hdue2i : t2 - t1 ≥ a2.interval := hdue2
  rw [hi] at hdue2i
  omega

/-- C2 witness: a concrete two-cycle run; the only alert due on the second
cycle has a different path than the alert dispatched on the first cycle. -/
theorem checkAlerts_no_double_dispatch_witness :
    (⟨"b.mm", "y", 60000000000, .int 2, 0⟩ : AlertDefinition).path ≠ "a.mm" := by
  have h := checkAlerts_no_double_dispatch []
    [("a.mm", "name=x\ninterval=5m\ndata=1")]
    [("a.mm", "name=x\ninterval=5m\ndata=1"), ("b.mm", "name=y\ninterval=1m\ndata=2")]
    1000000000000 1001000000000
    ⟨"a.mm", "x", 300000000000, .int 1, 0⟩ (by decide) (by decide)
    "name=x\ninterval=5m\ndata=1" (by decide)
    ⟨"a.mm", "x", 300000000000, .int 1, 0⟩ (by decide) rfl (by decide)
  exact h ⟨"b.mm", "y", 60000000000, .int 2, 0⟩ (by decide)

/-- C3: reloading the directory preserves `LastSent` by path — an alert whose
path has an entry both before and after `loadAlerts` keeps its timestamp. -/
theorem loadAlerts_preserves_lastSent
    (files : List (String × String)) (old : AlertTable) (p : String)
    (a a' : AlertDefinition) (hold : tlookup p old = some a)
    (hnew : tlookup p (loadAlerts files old) = some a') :
    a'.lastSent = a.lastSent := by
  unfold loadAlerts at hnew
  have hm := tlookup_mem hnew
  rcases mem_loadAlertsAux hm with h1 | ⟨c, al, _, _, hb⟩
  · simp at h1
  · subst hb
    simp only [inheritLS, hold]

/-- C3 witness: reloading an entry whose previous `LastSent` was 42 keeps 42. -/
theorem loadAlerts_preserves_lastSent_witness :
    (⟨"a.mm", "x", 300000000000, .int 1, 42⟩ : AlertDefinition).lastSent
      = (⟨"a.mm", "x", 300000000000, .int 1, 42⟩ : AlertDefinition).lastSent := by
  have h := loadAlerts_preserves_lastSent
    [("a.mm", "name=x\ninterval=5m\ndata=1")]
    [("a.mm", ⟨"a.mm", "x", 300000000000, .int 1, 42⟩)] "a.mm"
    ⟨"a.mm", "x", 300000000000, .int 1, 42⟩
    ⟨"a.mm", "x", 300000000000, .int 1, 42⟩ (by decide) (by decide)
  exact h

/-- C4: a file with no `name`, no `interval`, or no `data` line is rejected by
`parseAlertFile`; in `loadAlerts` a rejected file contributes no entry while
every file that parses still gets its entry (per-file isolation). -/
theorem parseAlertFile_missing_key_isolated :
    (∀ path content,
      ((∀ l ∈ goSplitOnChar '\n' content, lineHasKey "name" l = false) ∨
       (∀ l ∈ goSplitOnChar '\n' content, lineHasKey "interval" l = false) ∨
       (∀ l ∈ goSplitOnChar '\n' content, lineHasKey "data" l = false)) →
      ∃ e, parseAlertFile path content = .error e)
    ∧ (∀ (files : List (String × String)) (old : AlertTable) (p c : String),
        (files.map Prod.fst).Nodup → (p, c) ∈ files →
        ((∃ e, parseAlertFile p c = .error e) →
          tlookup p (loadAlerts files old) = none)
        ∧ (∀ a, parseAlertFile p c = .ok a →
            tlookup p (loadAlerts files old) = some (inheritLS old p a))) := by
  constructor
  · intro path content hmiss
    have henum : ∀ k, (∀ l ∈ goSplitOnChar '\n' content, lineHasKey k l = false) →
        ∀ il ∈ (goSplitOnChar '\n' content).enum, lineHasKey k il.2 = false :=
      fun k hall il hm => hall il.2 (snd_mem_of_mem_enum hm)
    cases hr : parseAlertLoop ((goSplitOnChar '\n' content).enum) "" 0 none with
    | error e => exact ⟨e, by simp only [parseAlertFile, hr]⟩
    | ok r =>
      by_cases h1 : r.1 = ""
      · exact ⟨"missing name field", by simp only [parseAlertFile, hr, h1, if_pos]⟩
      · rcases hmiss with hm | hm | hm
        · exact absurd (parseAlertLoop_name_const (henum _ hm) hr) h1
        · have h2 : r.2.1 = 0 := parseAlertLoop_interval_const (henum _ hm) hr
          refine ⟨"missing or invalid interval field", ?_⟩
          simp only [parseAlertFile, hr, h2]
          rw [if_neg h1]
          simp
        · by_cases h2 : r.2.1 = 0
          · exact ⟨"missing or invalid interval field", by
              simp only [parseAlertFile, hr, h2]
              rw [if_neg h1]
              simp⟩
          · have h3 : r.2.2 = none := parseAlertLoop_data_const (henum _ hm) hr
            refine ⟨"missing data field", ?_⟩
            simp only [parseAlertFile, hr, h3]
            rw [if_neg h1, if_neg h2]
  · intro files old p c hnd hmem
    constructor
    · rintro ⟨e, he⟩
      rw [tlookup_loadAlerts hnd hmem]
      simp only [he]
    · intro a ha
      rw [tlookup_loadAlerts hnd hmem]
      simp only [ha]

/-- C4 witness: a file with no `interval` line is rejected and contributes no
entry, while the valid file next to it still loads. -/
theorem parseAlertFile_missing_key_isolated_witness :
    (∃ e, parseAlertFile "bad.mm" "name=x\ndata=1" = .error e)
    ∧ tlookup "bad.mm" (loadAlerts
        [("bad.mm", "name=x\ndata=1"), ("good.mm", "name=y\ninterval=5m\ndata=2")]
        []) = none
    ∧ tlookup "good.mm" (loadAlerts
        [("bad.mm", "name=x\ndata=1"), ("good.mm", "name=y\ninterval=5m\ndata=2")]
        []) = some (inheritLS [] "good.mm" ⟨"good.mm", "y", 300000000000, .int 2, 0⟩) := by
  refine ⟨?_, ?_, ?_⟩
  · exact parseAlertFile_missing_key_isolated.1 "bad.mm" "name=x\ndata=1"
      (Or.inr (Or.inl (by decide)))
  · exact (parseAlertFile_missing_key_isolated.2
      [("bad.mm", "name=x\ndata=1"), ("good.mm", "name=y\ninterval=5m\ndata=2")]
      [] "bad.mm" "name=x\ndata=1" (by decide) (by decide)).1
      ⟨"missing or invalid interval field", by decide⟩
  · exact (parseAlertFile_missing_key_isolated.2
      [("bad.mm", "name=x\ndata=1"), ("good.mm", "name=y\ninterval=5m\ndata=2")]
      [] "good.mm" "name=y\ninterval=5m\ndata=2" (by decide) (by decide)).2
      ⟨"good.mm", "y", 300000000000, .int 2, 0⟩ (by decide)

/-- C5: every `AlertDefinition` produced by `parseAlertFile` has interval at
least one minute, and the clamp applied to every parsed interval value maps
anything below the floor to exactly `MinAlertInterval`. -/
theorem alert_interval_floor :
    (∀ path content a, parseAlertFile path content = .ok a →
        minAlertInterval ≤ a.interval)
    ∧ (∀ d : Int, d < minAlertInterval → clampInterval d = minAlertInterval) := by
  constructor
  · intro path content a h
    cases hr : parseAlertLoop ((goSplitOnChar '\n' content).enum) "" 0 none with
    | error e =>
      simp only [parseAlertFile, hr] at h
      cases h
    | ok r =>
      have hin := parseAlertLoop_interval_floor (Or.inl rfl) hr
      simp only [parseAlertFile, hr] at h
      by_cases h1 : r.1 = ""
      · rw [if_pos h1] at h
        cases h
      · rw [if_neg h1] at h
        by_cases h2 : r.2.1 = 0
        · rw [if_pos h2] at h
          cases h
        · rw [if_neg h2] at h
          cases hd : r.2.2 with
          | none =>
            rw [hd] at h
            cases h
          | some dv =>
            rw [hd] at h
            injection h with h
            rw [← h]
            rcases hin with h0 | hge
            · exact absurd h0 h2
            · exact hge
  · intro d hd
    unfold clampInterval
    rw [if_pos hd]

/-- C5 witness: a file asking for 30 seconds yields exactly the one-minute
floor, and the clamp maps 30s to exactly one minute. -/
theorem alert_interval_floor_witness :
    minAlertInterval ≤ (60000000000 : Int)
    ∧ clampInterval 30000000000 = minAlertInterval := by
  constructor
  · have h := alert_interval_floor.1 "f.mm" "name=x\ninterval=30s\ndata=1"
      ⟨"f.mm", "x", 60000000000, .int 1, 0⟩ (by decide)
    exact h
  · exact alert_interval_floor.2 30000000000 (by decide)

/-- C9: `Start` hands every loaded alert to dispatch exactly once (the sent
list is exactly the loaded table's values, with no duplicates), stamps every
entry's `LastSent` to the startup send time, and no alert is due again before
one full interval after startup. -/
theorem start_dispatches_all_once (files : List (String × String)) (now : Int) :
    (start files now).1 = (loadAlerts files []).map Prod.snd
    ∧ ((start files now).1).Nodup
    ∧ (∀ p a, (p, a) ∈ (start files now).2 → a.lastSent = now)
    ∧ (∀ t2 a, a ∈ (dueSelect t2 (start files now).2).1 → now + a.interval ≤ t2) := by
  have hwf : TableWF (loadAlerts files []) := tableWF_loadAlerts files []
  unfold start sendAllAlerts
  by_cases h0 : (loadAlerts files []).length = 0
  · have hnil : loadAlerts files [] = [] := List.length_eq_zero.mp h0
    rw [hnil]
    simp [dueSelect]
  · rw [if_neg h0]
    refine ⟨rfl, ?_, ?_, ?_⟩
    · have h1 : (loadAlerts files []).map (fun pa => pa.2.path)
          = (loadAlerts files []).map Prod.fst := by
        apply List.map_congr_left
        intro pa hpa
        exact hwf.2 pa.1 pa.2 hpa
      have h2 : ((loadAlerts files []).map (fun pa => pa.2.path)).Nodup := by
        rw [h1]; exact hwf.1
      have h3 : (((loadAlerts files []).map Prod.snd).map (fun a => a.path)).Nodup := by
        rw [List.map_map]
        exact h2
      exact h3.of_map _
    · intro p a hm
      rcases List.mem_map.mp hm with ⟨pa, hpa, he⟩
      injection he with e1 e2
      rw [← e2]
    · intro t2 a ha
      rcases mem_dueSelect.mp ha with ⟨p, hmem, hdue⟩
      rcases List.mem_map.mp hmem with ⟨pa, hpa, he⟩
      injection he with e1 e2
      have hls : a.lastSent = now := by rw [← e2]
      rw [hls] at hdue
      omega

/-- C9 witness: starting with one loaded alert at time 777 stamps its
`LastSent` to 777. -/
theorem start_dispatches_all_once_witness :
    (⟨"a.mm", "x", 300000000000, .int 1, 777⟩ : AlertDefinition).lastSent = 777 := by
  exact (start_dispatches_all_once [("a.mm", "name=x\ninterval=5m\ndata=1")] 777).2.2.1
    "a.mm" ⟨"a.mm", "x", 300000000000, .int 1, 777⟩ (by decide)

/-! ## events — process monitor

The `ps` invocation is the external process-metric provider; one invocation
is a `PSResult`: a possible pipe/start failure, the stdout lines (first line
is the header), and whether `Wait` reported a non-zero exit. -/

/-- `ProcessCPUStat` (pid via `ParseInt(..., 10, 32)`, CPU percent a
`float64` modelled as an exact rational). -/
structure ProcessCPUStat where
  pid : Int
  name : String
  username : String
  cpuPercent : ℚ
  deriving DecidableEq

/-- `ProcessMemStat` (resident KB via `ParseUint(..., 10, 64)`). -/
structure ProcessMemStat where
  pid : Int
  name : String
  username : String
  rssKB : Nat
  deriving DecidableEq

/-- One `ps` invocation as seen by `getTopProcessesPS`. -/
structure PSResult where
  stdoutPipeErr : Bool
  startErr : Bool
  lines : List String
  waitErr : Bool
  deriving DecidableEq

/-- A parsed `ps` output row. -/
structure PSRow where
  pid : Int
  user : String
  cpu : ℚ
  rss : Nat
  name : String
  deriving DecidableEq

/-- The per-line checks of the scan loop of `getTopProcessesPS`, factored
out of the loop body: at least 5 fields, valid pid/CPU%/RSS, command name
rejoined with single spaces when `comm` was split.  `none` is a skipped
(logged) line. -/
def parsePSRow (line : String) : Option PSRow :=
  match goFields line with
  | f0 :: f1 :: f2 :: f3 :: f4 :: rest =>
    match goParseInt32 f0 with
    | none => none
    | some pid =>
      match goParseFloatQ f2 with
      | none => none
      | some cpuPercent =>
        match goParseUint64 f3 with
        | none => none
        | some rssKB => some ⟨pid, f1, cpuPercent, rssKB, goJoinSpace (f4 :: rest)⟩
  | _ => none

/-- The scan loop of `getTopProcessesPS`: while lines remain and
`count < topN`, parse a row and append it to the slice matching the metric. -/
def psLoop (metric : String) (topN : Nat) :
    List String → Nat → List ProcessCPUStat → List ProcessMemStat →
    List ProcessCPUStat × List ProcessMemStat × Nat
  | [], count, cpuStats, memStats => (cpuStats, memStats, count)
  | line :: rest, count, cpuStats, memStats =>
    if count < topN then
      match parsePSRow line with
      | none => psLoop metric topN rest count cpuStats memStats
      | some row =>
        if metric = "cpu" then
          psLoop metric topN rest (count + 1)
            (cpuStats ++ [⟨row.pid, row.name, row.user, row.cpu⟩]) memStats
        else
          psLoop metric topN rest (count + 1)
            cpuStats (memStats ++ [⟨row.pid, row.name, row.user, row.rss⟩])
    else (cpuStats, memStats, count)

/-- `getTopProcessesPS`: run `ps` sorted by the metric, skip the header,
scan up to `topN` valid rows; a `Wait` error with zero parsed rows is an
error, otherwise ignored. -/
def getTopProcessesPS (metric : String) (topN : Nat) (r : PSResult) :
    Except String (List ProcessCPUStat × List ProcessMemStat) :=
  if metric ≠ "cpu" ∧ metric ≠ "mem" then
    .error "invalid metric for sorting"
  else if r.stdoutPipeErr then .error "failed to get stdout pipe"
  else if r.startErr then .error "failed to start ps command"
  else
    let res := psLoop metric topN (r.lines.drop 1) 0 [] []
    if r.waitErr ∧ res.2.2 = 0 then .error "ps command failed"
    else .ok (res.1, res.2.1)

/-- The mutex-guarded in-memory storage (`topCPUProcesses`,
`topMemProcesses`). -/
structure ProcessStore where
  topCPUProcesses : List ProcessCPUStat
  topMemProcesses : List ProcessMemStat
  deriving DecidableEq

/-- `CollectProcesses`: query CPU and memory tops; on either provider error
return the error and leave the store untouched, otherwise replace both
tables. -/
def collectProcesses (topN : Nat) (cpuPS memPS : PSResult)
    (store : ProcessStore) : Except String Unit × ProcessStore :=
  match getTopProcessesPS "cpu" topN cpuPS with
  | .error e => (.error ("failed to get top CPU processes: " ++ e), store)
  | .ok cpuRes =>
    match getTopProcessesPS "mem" topN memPS with
    | .error e => (.error ("failed to get top Memory processes: " ++ e), store)
    | .ok memRes => (.ok (), ⟨cpuRes.1, memRes.2⟩)

/-- The value returned by a read of one metric's table. -/
inductive ProcTable where
  | cpu : List ProcessCPUStat → ProcTable
  | mem : List ProcessMemStat → ProcTable
  deriving DecidableEq

/-- `GetProcessesJSON` without the JSON serialisation (which cannot fail for
these record types): the requested table, or the code's error for an empty
table or an unknown metric. -/
def getProcessesJSON (metric : String) (store : ProcessStore) :
    Except String ProcTable :=
  if metric = "cpu" then
    if store.topCPUProcesses.length = 0 then
      .error "no CPU process data collected yet"
    else .ok (.cpu store.topCPUProcesses)
  else if metric = "mem" then
    if store.topMemProcesses.length = 0 then
      .error "no Memory process data collected yet"
    else .ok (.mem store.topMemProcesses)
  else .error "invalid metric"

/-! ### Lemmas about the scan loop -/

theorem psLoop_cpu (topN : Nat) :
    ∀ (lines : List String) (count : Nat) (cpuStats : List ProcessCPUStat)
      (memStats : List ProcessMemStat),
      (psLoop "cpu" topN lines count cpuStats memStats).1 =
        cpuStats ++ (((lines.filterMap parsePSRow).take (topN - count)).map
          fun row => (⟨row.pid, row.name, row.user, row.cpu⟩ : ProcessCPUStat)) := by
  intro lines
  induction lines with
  | nil => intro count c m; simp [psLoop]
  | cons line rest ih =>
    intro count c m
    by_cases hc : count < topN
    · cases hp : parsePSRow line with
      | none =>
        simp only [psLoop, if_pos hc, hp]
        rw [ih]
        simp [List.filterMap_cons, hp]
      | some row =>
        simp only [psLoop, if_pos hc, hp, if_true, eq_self_iff_true, ite_true]
        rw [ih]
        have he : topN - count = (topN - (count + 1)) + 1 := by omega
        simp [List.filterMap_cons, hp, he, List.take_succ_cons]
    · simp only [psLoop, if_neg hc]
      have he : topN - count = 0 := by omega
      simp [he]

theorem psLoop_mem (topN : Nat) :
    ∀ (lines : List String) (count : Nat) (cpuStats : List ProcessCPUStat)
      (memStats : List ProcessMemStat),
      (psLoop "mem" topN lines count cpuStats memStats).2.1 =
        memStats ++ (((lines.filterMap parsePSRow).take (topN - count)).map
          fun row => (⟨row.pid, row.name, row.user, row.rss⟩ : ProcessMemStat)) := by
  intro lines
  induction lines with
  | nil => intro count c m; simp [psLoop]
  | cons line rest ih =>
    intro count c m
    by_cases hc : count < topN
    · cases hp : parsePSRow line with
      | none =>
        simp only [psLoop, if_pos hc, hp]
        rw [ih]
        simp [List.filterMap_cons, hp]
      | some row =>
        have hne : ¬ ("mem" : String) = "cpu" := by decide
        simp only [psLoop, if_pos hc, hp, if_neg hne, if_false]
        rw [ih]
        have he : topN - count = (topN - (count + 1)) + 1 := by omega
        simp [List.filterMap_cons, hp, he, List.take_succ_cons]
    · simp only [psLoop, if_neg hc]
      have he : topN - count = 0 := by omega
      simp [he]

theorem getTopProcessesPS_ok_cpu {topN : Nat} {r : PSResult}
    {res : List ProcessCPUStat × List ProcessMemStat}
    (h : getTopProcessesPS "cpu" topN r = .ok res) :
    res.1 = (((r.lines.drop 1).filterMap parsePSRow).take topN).map
      fun row => (⟨row.pid, row.name, row.user, row.cpu⟩ : ProcessCPUStat) := by
  unfold getTopProcessesPS at h
  rw [if_neg (by simp)] at h
  by_cases h1 : r.stdoutPipeErr = true
  · rw [if_pos h1] at h; cases h
  · rw [if_neg h1] at h
    by_cases h2 : r.startErr = true
    · rw [if_pos h2] at h; cases h
    · rw [if_neg h2] at h
      by_cases h3 : r.waitErr = true ∧ (psLoop "cpu" topN (r.lines.drop 1) 0 [] []).2.2 = 0
      · rw [if_pos h3] at h; cases h
      · rw [if_neg h3] at h
        injection h with h
        rw [← h]
        rw [psLoop_cpu]
        simp

theorem getTopProcessesPS_ok_mem {topN : Nat} {r : PSResult}
    {res : List ProcessCPUStat × List ProcessMemStat}
    (h : getTopProcessesPS "mem" topN r = .ok res) :
    res.2 = (((r.lines.drop 1).filterMap parsePSRow).take topN).map
      fun row => (⟨row.pid, row.name, row.user, row.rss⟩ : ProcessMemStat) := by
  unfold getTopProcessesPS at h
  rw [if_neg (by simp)] at h
  by_cases h1 : r.stdoutPipeErr = true
  · rw [if_pos h1] at h; cases h
  · rw [if_neg h1] at h
    by_cases h2 : r.startErr = true
    · rw [if_pos h2] at h; cases h
    · rw [if_neg h2] at h
      by_cases h3 : r.waitErr = true ∧ (psLoop "mem" topN (r.lines.drop 1) 0 [] []).2.2 = 0
      · rw [if_pos h3] at h; cases h
      · rw [if_neg h3] at h
        injection h with h
        rw [← h]
        rw [psLoop_mem]
        simp

/-- C6: if the provider fails on either the CPU or the memory query,
`CollectProcesses` returns an error and the store keeps exactly its previous
two tables. -/
theorem collectProcesses_error_keeps_store (topN : Nat) (cpuPS memPS : PSResult)
    (store : ProcessStore)
    (h : (∃ e, getTopProcessesPS "cpu" topN cpuPS = .error e) ∨
         (∃ e, getTopProcessesPS "mem" topN memPS = .error e)) :
    (∃ e, (collectProcesses topN cpuPS memPS store).1 = .error e)
    ∧ (collectProcesses topN cpuPS memPS store).2 = store := by
  cases hc : getTopProcessesPS "cpu" topN cpuPS with
  | error e =>
    constructor
    · exact ⟨"failed to get top CPU processes: " ++ e, by simp only [collectProcesses, hc]⟩
    · simp only [collectProcesses, hc]
  | ok cpuRes =>
    cases hm2 : getTopProcessesPS "mem" topN memPS with
    | error e =>
      constructor
      · exact ⟨"failed to get top Memory processes: " ++ e,
          by simp only [collectProcesses, hc, hm2]⟩
      · simp only [collectProcesses, hc, hm2]
    | ok memRes =>
      exfalso
      rcases h with ⟨e, he⟩ | ⟨e, he⟩
      · rw [hc] at he; cases he
      · rw [hm2] at he; cases he

/-- C6 witness: a failing CPU query leaves a concrete non-empty store
unchanged. -/
theorem collectProcesses_error_keeps_store_witness :
    (∃ e, (collectProcesses 10 ⟨false, true, [], false⟩ ⟨false, false, [], false⟩
        ⟨[⟨1, "a", "u", 2⟩], [⟨3, "b", "v", 4⟩]⟩).1 = .error e)
    ∧ (collectProcesses 10 ⟨false, true, [], false⟩ ⟨false, false, [], false⟩
        ⟨[⟨1, "a", "u", 2⟩], [⟨3, "b", "v", 4⟩]⟩).2
      = ⟨[⟨1, "a", "u", 2⟩], [⟨3, "b", "v", 4⟩]⟩ :=
  collectProcesses_error_keeps_store 10 ⟨false, true, [], false⟩
    ⟨false, false, [], false⟩ ⟨[⟨1, "a", "u", 2⟩], [⟨3, "b", "v", 4⟩]⟩
    (Or.inl ⟨"failed to start ps command", by decide⟩)

/-- C7: after a successful `CollectProcesses` with top-N, each table read via
`GetProcessesJSON` has at most N entries and is sorted descending by the
relevant metric, assuming the provider (`ps --sort`) emitted its valid rows
sorted by that metric. -/
theorem collect_then_read_sorted_bounded (topN : Nat) (cpuPS memPS : PSResult)
    (store store' : ProcessStore)
    (hc : collectProcesses topN cpuPS memPS store = (.ok (), store'))
    (hsc : ((cpuPS.lines.drop 1).filterMap parsePSRow).Pairwise
      fun r1 r2 => r2.cpu ≤ r1.cpu)
    (hsm : ((memPS.lines.drop 1).filterMap parsePSRow).Pairwise
      fun r1 r2 => r2.rss ≤ r1.rss) :
    (∀ l, getProcessesJSON "cpu" store' = .ok (.cpu l) →
        l.length ≤ topN ∧ l.Pairwise fun a b => b.cpuPercent ≤ a.cpuPercent)
    ∧ (∀ l, getProcessesJSON "mem" store' = .ok (.mem l) →
        l.length ≤ topN ∧ l.Pairwise fun a b => b.rssKB ≤ a.rssKB) := by
  cases hcc : getTopProcessesPS "cpu" topN cpuPS with
  | error e =>
    simp only [collectProcesses, hcc] at hc
    injection hc with h1 h2
    cases h1
  | ok cpuRes =>
    cases hmc : getTopProcessesPS "mem" topN memPS with
    | error e =>
      simp only [collectProcesses, hcc, hmc] at hc
      injection hc with h1 h2
      cases h1
    | ok memRes =>
      simp only [collectProcesses, hcc, hmc] at hc
      injection hc with h1 h2
      subst h2
      have hcpu := getTopProcessesPS_ok_cpu hcc
      have hmem := getTopProcessesPS_ok_mem hmc
      constructor
      · intro l hl
        simp only [getProcessesJSON, if_pos rfl] at hl
        by_cases h0 : cpuRes.1.length = 0
        · rw [if_pos h0] at hl; cases hl
        · rw [if_neg h0] at hl
          injection hl with hl
          injection hl with hl
          rw [← hl, hcpu]
          constructor
          · calc ((((cpuPS.lines.drop 1).filterMap parsePSRow).take topN).map
                fun row => (⟨row.pid, row.name, row.user, row.cpu⟩ : ProcessCPUStat)).length
                = (((cpuPS.lines.drop 1).filterMap parsePSRow).take topN).length := by
                  rw [List.length_map]
              _ ≤ topN := List.length_take_le _ _
          · refine List.pairwise_map.mpr ?_
            exact List.Pairwise.sublist (List.take_sublist _ _) hsc
      · intro l hl
        have hne : ¬ ("mem" : String) = "cpu" := by decide
        simp only [getProcessesJSON, if_neg hne, if_pos rfl] at hl
        by_cases h0 : memRes.2.length = 0
        · rw [if_pos h0] at hl; cases hl
        · rw [if_neg h0] at hl
          injection hl with hl
          injection hl with hl
          rw [← hl, hmem]
          constructor
          · calc ((((memPS.lines.drop 1).filterMap parsePSRow).take topN).map
                fun row => (⟨row.pid, row.name, row.user, row.rss⟩ : ProcessMemStat)).length
                = (((memPS.lines.drop 1).filterMap parsePSRow).take topN).length := by
                  rw [List.length_map]
              _ ≤ topN := List.length_take_le _ _
          · refine List.pairwise_map.mpr ?_
            exact List.Pairwise.sublist (List.take_sublist _ _) hsm

/-- C7 witness: a concrete collect of top-2 from sorted `ps` output gives a
2-element descending CPU table. -/
theorem collect_then_read_sorted_bounded_witness :
    ([⟨10, "a", "root", 9⟩, ⟨11, "b", "bob", 5⟩] : List ProcessCPUStat).length ≤ 2
    ∧ ([⟨10, "a", "root", 9⟩, ⟨11, "b", "bob", 5⟩] : List ProcessCPUStat).Pairwise
        (fun a b => b.cpuPercent ≤ a.cpuPercent) :=
  (collect_then_read_sorted_bounded 2
    ⟨false, false, ["h", " 10 root 9 300 a", " 11 bob 5 200 b"], false⟩
    ⟨false, false, ["h", " 12 x 1 500 c", " 13 y 1 400 d"], false⟩
    ⟨[], []⟩
    ⟨[⟨10, "a", "root", 9⟩, ⟨11, "b", "bob", 5⟩],
     [⟨12, "c", "x", 500⟩, ⟨13, "d", "y", 400⟩]⟩
    (by decide) (by decide) (by decide)).1
    [⟨10, "a", "root", 9⟩, ⟨11, "b", "bob", 5⟩] (by decide)

/-! ## main.go — configuration and heartbeat list overrides

A decoded server response: the optional string value of the `message` key,
and the `Custom` struct decoded from the same body.  A JSON key that is
absent or null leaves the Go slice nil (`none`); a present empty array is an
empty non-nil slice (`some []`). -/

/-- The parts of a configuration/heartbeat response body the handlers use. -/
structure ConfResponse where
  message : Option String
  disks : Option (List String)
  services : Option (List String)
  deriving DecidableEq

/-- The configuration-response handler (main.go lines 390-404): `noconf`
changes nothing; otherwise each non-nil slice of `Custom` replaces the
in-memory default. -/
def applyConf (resp : ConfResponse)
    (defaultDisks defaultServices : List String) : List String × List String :=
  if resp.message = some "noconf" then (defaultDisks, defaultServices)
  else
    ((match resp.disks with
      | some d => d
      | none => defaultDisks),
     (match resp.services with
      | some s => s
      | none => defaultServices))

/-- The heartbeat-response handler (main.go lines 540-557): `tomany` backs
off and skips the override; otherwise non-nil slices replace the defaults. -/
def applyHeartbeatConf (resp : ConfResponse)
    (defaultDisks defaultServices : List String) : List String × List String :=
  if resp.message = some "tomany" then (defaultDisks, defaultServices)
  else
    ((match resp.disks with
      | some d => d
      | none => defaultDisks),
     (match resp.services with
      | some s => s
      | none => defaultServices))

/-- C8 counterexample: the handler checks `custom.Disks != nil`, not
non-emptiness, so a response carrying present-but-empty arrays replaces both
defaults with empty lists — refuting "replaced only when the response
supplies non-empty replacement lists". -/
theorem conf_empty_list_replaces :
    (⟨none, some [], some []⟩ : ConfResponse).disks = some []
    ∧ applyConf ⟨none, some [], some []⟩ ["/", "/home"] ["sshd", "monitor-monkey"]
        = ([], [])
    ∧ ([] : List String) ≠ ["/", "/home"] :=
  ⟨rfl, rfl, by decide⟩

/-- C8 amended: the lists are replaced exactly when the response supplies the
corresponding key as a non-null value (a present empty list also replaces);
`noconf` (configuration) and `tomany` (heartbeat) leave both defaults
unchanged, as does a response supplying no replacement. -/
theorem conf_replacement_characterization (resp : ConfResponse)
    (defaultDisks defaultServices : List String) :
    (resp.message = some "noconf" →
      applyConf resp defaultDisks defaultServices = (defaultDisks, defaultServices))
    ∧ (resp.disks = none →
      (applyConf resp defaultDisks defaultServices).1 = defaultDisks)
    ∧ (resp.services = none →
      (applyConf resp defaultDisks defaultServices).2 = defaultServices)
    ∧ (∀ l, resp.disks = some l → resp.message ≠ some "noconf" →
      (applyConf resp defaultDisks defaultServices).1 = l)
    ∧ (∀ l, resp.services = some l → resp.message ≠ some "noconf" →
      (applyConf resp defaultDisks defaultServices).2 = l)
    ∧ (resp.message = some "tomany" →
      applyHeartbeatConf resp defaultDisks defaultServices
        = (defaultDisks, defaultServices))
    ∧ (resp.disks = none →
      (applyHeartbeatConf resp defaultDisks defaultServices).1 = defaultDisks)
    ∧ (resp.services = none →
      (applyHeartbeatConf resp defaultDisks defaultServices).2 = defaultServices)
    ∧ (∀ l, resp.disks = some l → resp.message ≠ some "tomany" →
      (applyHeartbeatConf resp defaultDisks defaultServices).1 = l)
    ∧ (∀ l, resp.services = some l → resp.message ≠ some "tomany" →
      (applyHeartbeatConf resp defaultDisks defaultServices).2 = l) := by
  refine ⟨?_, ?_, ?_, ?_, ?_, ?_, ?_, ?_, ?_, ?_⟩
  · intro hm; simp [applyConf, hm]
  · intro hd
    by_cases hm : resp.message = some "noconf"
    · simp [applyConf, hm]
    · simp [applyConf, hm, hd]
  · intro hs
    by_cases hm : resp.message = some "noconf"
    · simp [applyConf, hm]
    · simp [applyConf, hm, hs]
  · intro l hd hm; simp [applyConf, hm, hd]
  · intro l hs hm; simp [applyConf, hm, hs]
  · intro hm; simp [applyHeartbeatConf, hm]
  · intro hd
    by_cases hm : resp.message = some "tomany"
    · simp [applyHeartbeatConf, hm]
    · simp [applyHeartbeatConf, hm, hd]
  · intro hs
    by_cases hm : resp.message = some "tomany"
    · simp [applyHeartbeatConf, hm]
    · simp [applyHeartbeatConf, hm, hs]
  · intro l hd hm; simp [applyHeartbeatConf, hm, hd]
  · intro l hs hm; simp [applyHeartbeatConf, hm, hs]

/-- C8 witness: `noconf` keeps the defaults even with replacements attached;
an absent key keeps the default; a supplied list replaces; `tomany` keeps the
defaults on the heartbeat path. -/
theorem conf_replacement_characterization_witness :
    applyConf ⟨some "noconf", some ["/x"], some ["svc"]⟩ ["/", "/home"] ["sshd"]
      = (["/", "/home"], ["sshd"])
    ∧ (applyConf ⟨none, none, some ["svc"]⟩ ["/", "/home"] ["sshd"]).1 = ["/", "/home"]
    ∧ (applyConf ⟨none, some ["/x"], none⟩ ["/", "/home"] ["sshd"]).1 = ["/x"]
    ∧ applyHeartbeatConf ⟨some "tomany", some ["/x"], some ["svc"]⟩
        ["/", "/home"] ["sshd"] = (["/", "/home"], ["sshd"]) :=
  ⟨(conf_replacement_characterization ⟨some "noconf", some ["/x"], some ["svc"]⟩
      ["/", "/home"] ["sshd"]).1 rfl,
   (conf_replacement_characterization ⟨none, none, some ["svc"]⟩
      ["/", "/home"] ["sshd"]).2.1 rfl,
   (conf_replacement_characterization ⟨none, some ["/x"], none⟩
      ["/", "/home"] ["sshd"]).2.2.2.1 ["/x"] rfl (by decide),
   (conf_replacement_characterization ⟨some "tomany", some ["/x"], some ["svc"]⟩
      ["/", "/home"] ["sshd"]).2.2.2.2.2.1 rfl⟩

/-! ## events/ports.go — open ports

The four `/proc/net` socket tables and `/etc/services` are explicit inputs
(`none` models a read error, which the code logs and skips). -/

/-- `PortInfo` (the `Service` field is `omitempty`; `none` models the unset
Go zero string). -/
structure PortInfo where
  port : Int
  service : Option String
  deriving DecidableEq

/-- `OpenPorts`. -/
structure OpenPorts where
  tcp : List PortInfo
  udp : List PortInfo
  deriving DecidableEq

/-- One byte map entry of `encoding/hex`. -/
def hexCharVal (c : Char) : Option Nat :=
  if c.isDigit then some (c.toNat - 48)
  else if 'a' ≤ c ∧ c ≤ 'f' then some (c.toNat - 87)
  else if 'A' ≤ c ∧ c ≤ 'F' then some (c.toNat - 55)
  else none

/-- `hex.DecodeString` on characters: pairs of hex digits to bytes; odd
length or an invalid digit is an error. -/
def hexDecodeChars : List Char → Option (List Nat)
  | [] => some []
  | [_] => none
  | c1 :: c2 :: rest =>
    match hexCharVal c1, hexCharVal c2, hexDecodeChars rest with
    | some hi, some lo, some bs => some ((hi * 16 + lo) :: bs)
    | _, _, _ => none

/-- `hex.DecodeString`. -/
def hexDecode (s : String) : Option (List Nat) :=
  hexDecodeChars s.data

/-- `parseLocalAddress`: split the `ip:port` hex pair, parse the 16-bit port,
decode the IP — reversing bytes for IPv4 (little-endian in `/proc/net`), raw
bytes for IPv6 (as the code does, without byte swapping). -/
def parseLocalAddress (addr : String) : Option (List Nat × Int) :=
  match goSplitOnChar ':' addr with
  | [ipHex, portHex] =>
    match goParseUintHex16 portHex with
    | none => none
    | some port =>
      if ipHex.data.length = 8 then
        match hexDecode ipHex with
        | none => none
        | some ipBytes => some (ipBytes.reverse, (port : Int))
      else if ipHex.data.length = 32 then
        match hexDecode ipHex with
        | none => none
        | some ipBytes => some (ipBytes, (port : Int))
      else none
  | _ => none

/-- `net.IP.To4`: a 4-byte address itself, or the low 4 bytes of an
IPv4-mapped IPv6 address. -/
def ipTo4 (ip : List Nat) : Option (List Nat) :=
  if ip.length = 4 then some ip
  else if ip.length = 16 ∧ ip.take 10 = List.replicate 10 0
      ∧ (ip.drop 10).take 2 = [255, 255] then some (ip.drop 12)
  else none

/-- `net.IP.IsLoopback`: first byte 127 for (possibly v4-mapped) IPv4, or
equality with `::1`. -/
def ipIsLoopback (ip : List Nat) : Bool :=
  match ipTo4 ip with
  | some v4 => v4.head? == some 127
  | none => ip == List.replicate 15 0 ++ [1]

/-- Set-insert for the Go port set, as an order-preserving dedup list (only
membership matters downstream; the final slices are sorted anyway). -/
def insertDedup (acc : List Int) (p : Int) : List Int :=
  if p ∈ acc then acc else acc ++ [p]

/-- The per-line body of the scan loop of `getOpenPorts`: at least 4 fields,
TCP lines must be in LISTEN state (`0A`), the local address must parse, and
loopback addresses are excluded. -/
def portScanStep (isTCP : Bool) (acc : List Int) (line : String) : List Int :=
  match goFields line with
  | _ :: f1 :: _ :: f3 :: _ =>
    if isTCP ∧ f3 ≠ "0A" then acc
    else
      match parseLocalAddress f1 with
      | none => acc
      | some ipPort =>
        if ¬ ipIsLoopback ipPort.1 then insertDedup acc ipPort.2 else acc
  | _ => acc

/-- `getOpenPorts` on one socket-table file's content: skip the header line,
scan the rest. -/
def getOpenPortsFromContent (content : String) (isTCP : Bool) : List Int :=
  ((goSplitOnChar '\n' content).drop 1).foldl (portScanStep isTCP) []

/-- The per-file body of `GetOpenPorts`: a read error is skipped, otherwise
the file's ports are merged into the set. -/
def gatherStep (isTCP : Bool) (acc : List Int) (oc : Option String) : List Int :=
  match oc with
  | none => acc
  | some c => (getOpenPortsFromContent c isTCP).foldl insertDedup acc

/-- Merge the ports of several socket-table files. -/
def gatherPorts (isTCP : Bool) (contents : List (Option String)) : List Int :=
  contents.foldl (gatherStep isTCP) []

/-- A Go map write for the `/etc/services` maps. -/
def smapInsert : List (Int × String) → Int → String → List (Int × String)
  | [], k, v => [(k, v)]
  | (k0, v0) :: rest, k, v =>
    if k0 = k then (k, v) :: rest else (k0, v0) :: smapInsert rest k v

/-- A Go map read for the `/etc/services` maps. -/
def slookup (p : Int) : List (Int × String) → Option String
  | [] => none
  | (k, v) :: rest => if k = p then some v else slookup p rest

/-- `loadServices`: parse `/etc/services` into TCP and UDP port-to-name
maps, skipping blanks, comments and malformed entries. -/
def loadServices (content : String) :
    List (Int × String) × List (Int × String) :=
  (goSplitOnChar '\n' content).foldl (fun maps rawLine =>
    let line := goTrimSpace rawLine
    if line = "" ∨ goStartsWith line "#" then maps
    else
      match goFields line with
      | serviceName :: portProto :: _ =>
        match goSplitOnChar '/' portProto with
        | [portStr, proto] =>
          match goAtoi portStr with
          | none => maps
          | some port =>
            if proto = "tcp" then (smapInsert maps.1 port serviceName, maps.2)
            else if proto = "udp" then (maps.1, smapInsert maps.2 port serviceName)
            else maps
        | _ => maps
      | _ => maps) ([], [])

/-- Insertion step for `sort.Slice(..., by port)`. -/
def insertByPort (x : PortInfo) : List PortInfo → List PortInfo
  | [] => [x]
  | y :: ys => if x.port < y.port then x :: y :: ys else y :: insertByPort x ys

/-- `sort.Slice(portInfos, by ascending port)`, modelled as insertion sort
(the properties below only use membership, preserved by any sort). -/
def sortByPort (l : List PortInfo) : List PortInfo :=
  l.foldr insertByPort []

/-- `GetOpenPorts` over explicit file contents: `/etc/services`, then
`/proc/net/tcp`, `tcp6`, `udp`, `udp6`. -/
def getOpenPortsAll (servicesContent : Option String)
    (tcp tcp6 udp udp6 : Option String) : OpenPorts :=
  let maps := match servicesContent with
    | some c => loadServices c
    | none => ([], [])
  let tcpPorts := gatherPorts true [tcp, tcp6]
  let udpPorts := gatherPorts false [udp, udp6]
  ⟨sortByPort (tcpPorts.map fun p => ⟨p, slookup p maps.1⟩),
   sortByPort (udpPorts.map fun p => ⟨p, slookup p maps.2⟩)⟩

/-! ### Membership lemmas for the port pipeline -/

/-- The conditions under which one socket-table line contributes port `p`:
enough fields, LISTEN state for TCP, and a parsed non-loopback local
address carrying `p`. -/
def lineYieldsPort (isTCP : Bool) (line : String) (p : Int) : Prop :=
  match goFields line with
  | _ :: f1 :: _ :: f3 :: _ =>
    (isTCP = true → f3 = "0A")
    ∧ ∃ ip, parseLocalAddress f1 = some (ip, p) ∧ ipIsLoopback ip = false
  | _ => False

theorem mem_insertDedup {acc : List Int} {p q : Int}
    (h : q ∈ insertDedup acc p) : q ∈ acc ∨ q = p := by
  unfold insertDedup at h
  by_cases hp : p ∈ acc
  · rw [if_pos hp] at h
    exact Or.inl h
  · rw [if_neg hp] at h
    rcases List.mem_append.mp h with h1 | h1
    · exact Or.inl h1
    · exact Or.inr (List.mem_singleton.mp h1)

theorem mem_foldl_insertDedup {q : Int} :
    ∀ {l : List Int} {acc : List Int},
      q ∈ l.foldl insertDedup acc → q ∈ acc ∨ q ∈ l := by
  intro l
  induction l with
  | nil => intro acc h; exact Or.inl h
  | cons x xs ih =>
    intro acc h
    rw [List.foldl_cons] at h
    rcases ih h with h1 | h1
    · rcases mem_insertDedup h1 with h2 | h2
      · exact Or.inl h2
      · exact Or.inr (h2 ▸ List.mem_cons_self _ _)
    · exact Or.inr (List.mem_cons_of_mem _ h1)

theorem mem_portScanStep {isTCP : Bool} {acc : List Int} {line : String} {q : Int}
    (h : q ∈ portScanStep isTCP acc line) :
    q ∈ acc ∨ lineYieldsPort isTCP line q := by
  unfold portScanStep at h
  unfold lineYieldsPort
  rcases hf : goFields line with _ | ⟨f0, _ | ⟨f1, _ | ⟨f2, _ | ⟨f3, rest⟩⟩⟩⟩
  · simp only [hf] at h
    exact Or.inl h
  · simp only [hf] at h
    exact Or.inl h
  · simp only [hf] at h
    exact Or.inl h
  · simp only [hf] at h
    exact Or.inl h
  · simp only [hf] at h ⊢
    by_cases h1 : isTCP = true ∧ f3 ≠ "0A"
    · rw [if_pos h1] at h
      exact Or.inl h
    · rw [if_neg h1] at h
      cases hpl : parseLocalAddress f1 with
      | none =>
        simp only [hpl] at h
        exact Or.inl h
      | some ipPort =>
        simp only [hpl] at h
        by_cases h2 : ¬ ipIsLoopback ipPort.1
        · rw [if_pos h2] at h
          rcases mem_insertDedup h with h3 | h3
          · exact Or.inl h3
          · right
            subst h3
            refine ⟨fun hT => ?_, ipPort.1, rfl, ?_⟩
            · by_contra hf3
              exact h1 ⟨hT, hf3⟩
            · simpa using h2
        · rw [if_neg h2] at h
          exact Or.inl h

theorem mem_foldl_portScanStep {isTCP : Bool} {q : Int} :
    ∀ {lines : List String} {acc : List Int},
      q ∈ lines.foldl (portScanStep isTCP) acc →
      q ∈ acc ∨ ∃ line ∈ lines, lineYieldsPort isTCP line q := by
  intro lines
  induction lines with
  | nil => intro acc h; exact Or.inl h
  | cons x xs ih =>
    intro acc h
    rw [List.foldl_cons] at h
    rcases ih h with h1 | ⟨line, hm, hy⟩
    · rcases mem_portScanStep h1 with h2 | h2
      · exact Or.inl h2
      · exact Or.inr ⟨x, List.mem_cons_self _ _, h2⟩
    · exact Or.inr ⟨line, List.mem_cons_of_mem _ hm, hy⟩

theorem mem_getOpenPortsFromContent {content : String} {isTCP : Bool} {q : Int}
    (h : q ∈ getOpenPortsFromContent content isTCP) :
    ∃ line ∈ (goSplitOnChar '\n' content).drop 1, lineYieldsPort isTCP line q := by
  unfold getOpenPortsFromContent at h
  rcases mem_foldl_portScanStep h with h1 | h1
  · simp at h1
  · exact h1

theorem mem_gatherStep {isTCP : Bool} {acc : List Int} {oc : Option String} {q : Int}
    (h : q ∈ gatherStep isTCP acc oc) :
    q ∈ acc ∨ ∃ c, oc = some c ∧ q ∈ getOpenPortsFromContent c isTCP := by
  unfold gatherStep at h
  cases oc with
  | none => exact Or.inl h
  | some c =>
    rcases mem_foldl_insertDedup h with h1 | h1
    · exact Or.inl h1
    · exact Or.inr ⟨c, rfl, h1⟩

theorem mem_gatherPorts {isTCP : Bool} {q : Int} :
    ∀ {contents : List (Option String)} {acc : List Int},
      q ∈ contents.foldl (gatherStep isTCP) acc →
      q ∈ acc ∨ ∃ c, some c ∈ contents ∧ q ∈ getOpenPortsFromContent c isTCP := by
  intro contents
  induction contents with
  | nil => intro acc h; exact Or.inl h
  | cons oc rest ih =>
    intro acc h
    rw [List.foldl_cons] at h
    rcases ih h with h1 | ⟨c, hm, hq⟩
    · rcases mem_gatherStep h1 with h2 | ⟨c, he, hq⟩
      · exact Or.inl h2
      · exact Or.inr ⟨c, he ▸ List.mem_cons_self _ _, hq⟩
    · exact Or.inr ⟨c, List.mem_cons_of_mem _ hm, hq⟩

theorem mem_gatherPortsAll {isTCP : Bool} {q : Int} {contents : List (Option String)}
    (h : q ∈ gatherPorts isTCP contents) :
    ∃ c, some c ∈ contents ∧ q ∈ getOpenPortsFromContent c isTCP := by
  unfold gatherPorts at h
  rcases mem_gatherPorts h with h1 | h1
  · simp at h1
  · exact h1

theorem mem_insertByPort {x y : PortInfo} :
    ∀ {l : List PortInfo}, y ∈ insertByPort x l → y = x ∨ y ∈ l := by
  intro l
  induction l with
  | nil =>
    intro h
    rw [insertByPort] at h
    exact Or.inl (List.mem_singleton.mp h)
  | cons z zs ih =>
    intro h
    rw [insertByPort] at h
    by_cases hc : x.port < z.port
    · rw [if_pos hc] at h
      rcases List.mem_cons.mp h with h1 | h1
      · exact Or.inl h1
      · exact Or.inr h1
    · rw [if_neg hc] at h
      rcases List.mem_cons.mp h with h1 | h1
      · exact Or.inr (h1 ▸ List.mem_cons_self _ _)
      · rcases ih h1 with h2 | h2
        · exact Or.inl h2
        · exact Or.inr (List.mem_cons_of_mem _ h2)

theorem mem_sortByPort {y : PortInfo} :
    ∀ {l : List PortInfo}, y ∈ sortByPort l → y ∈ l := by
  intro l
  induction l with
  | nil => intro h; exact absurd h (by simp [sortByPort])
  | cons z zs ih =>
    intro h
    rcases mem_insertByPort h with h1 | h1
    · exact h1 ▸ List.mem_cons_self _ _
    · exact List.mem_cons_of_mem _ (ih h1)

/-- C10: every port reported by `GetOpenPorts` comes from a socket-table
line whose parsed local address is not a loopback address (and, for TCP,
whose state field is LISTEN). -/
theorem getOpenPorts_excludes_loopback (sc tcp tcp6 udp udp6 : Option String) :
    (∀ pi ∈ (getOpenPortsAll sc tcp tcp6 udp udp6).tcp,
      ∃ c, (tcp = some c ∨ tcp6 = some c)
        ∧ ∃ line ∈ (goSplitOnChar '\n' c).drop 1, lineYieldsPort true line pi.port)
    ∧ (∀ pi ∈ (getOpenPortsAll sc tcp tcp6 udp udp6).udp,
      ∃ c, (udp = some c ∨ udp6 = some c)
        ∧ ∃ line ∈ (goSplitOnChar '\n' c).drop 1, lineYieldsPort false line pi.port) := by
  constructor
  · intro pi hm
    simp only [getOpenPortsAll] at hm
    have h1 := mem_sortByPort hm
    rcases List.mem_map.mp h1 with ⟨p, hp, he⟩
    rcases mem_gatherPortsAll hp with ⟨c, hc, hq⟩
    · have hc2 : tcp = some c ∨ tcp6 = some c := by
        rcases List.mem_cons.mp hc with h3 | h3
        · exact Or.inl h3.symm
        · rcases List.mem_cons.mp h3 with h4 | h4
          · exact Or.inr h4.symm
          · simp at h4
      have hport : pi.port = p := by rw [← he]
      rcases mem_getOpenPortsFromContent hq with ⟨line, hlm, hy⟩
      exact ⟨c, hc2, line, hlm, hport ▸ hy⟩
  · intro pi hm
    simp only [getOpenPortsAll] at hm
    have h1 := mem_sortByPort hm
    rcases List.mem_map.mp h1 with ⟨p, hp, he⟩
    rcases mem_gatherPortsAll hp with ⟨c, hc, hq⟩
    · have hc2 : udp = some c ∨ udp6 = some c := by
        rcases List.mem_cons.mp hc with h3 | h3
        · exact Or.inl h3.symm
        · rcases List.mem_cons.mp h3 with h4 | h4
          · exact Or.inr h4.symm
          · simp at h4
      have hport : pi.port = p := by rw [← he]
      rcases mem_getOpenPortsFromContent hq with ⟨line, hlm, hy⟩
      exact ⟨c, hc2, line, hlm, hport ▸ hy⟩

/-- C10 witness: one non-loopback TCP LISTEN socket on port `0x50` yields a
witness line from the parsed `/proc/net/tcp` content. -/
theorem getOpenPorts_excludes_loopback_witness :
    ∃ c, (some "sl local rem st\n 0: 00000000:0050 00000000:0000 0A" = some c
        ∨ (none : Option String) = some c)
      ∧ ∃ line ∈ (goSplitOnChar '\n' c).drop 1, lineYieldsPort true line 80 :=
  (getOpenPorts_excludes_loopback none
    (some "sl local rem st\n 0: 00000000:0050 00000000:0000 0A") none none none).1
    ⟨80, none⟩ (by decide)

end MonitorMonkey
